import Mathlib

/-!
Shallow embedding of the frame-grid editing and repacking engine of the
sprite-sheet studio.

The repository contains two variants of the frame editor:

* the richer editor (file `src/unnamed/part_001`), embedded below in the
  namespace `MainEditor`: packed-index save/repack, per-frame content
  bounds, exhaustive (stride-1) pixel scan, background sampled from the
  first non-deleted frame's rendered output, optional per-frame override
  images;

* the simpler editor appended inside `src/components/SpritePreview.tsx`,
  embedded below in the namespace `AltEditor`: save keeps each surviving
  frame at its original array position, a single global bounding box is
  computed across all frames with a stride-2 scan, and the background is
  sampled from the source image's top-left cell origin.

Canvas pixel output of a rotated/scaled/flipped draw is not recomputed
here; instead the per-frame rendering (`renderFrameToTemp` and friends)
is split into (a) an abstract parameter `render : FrameData → Image`
standing for the pixels the scratch canvas holds after the frame is
drawn, used by the scan/repack logic, and (b) an explicit canvas-command
embedding (`CanvasOp`) of the transform pipeline itself, with a small
affine semantics, used to verify the transform order.
-/

namespace SpriteGen

/-- RGB color of one pixel.  The alpha channel is ignored: every scan in the
source only reads channels 0..2 of the `ImageData` array. -/
structure Color where
  r : Nat
  g : Nat
  b : Nat
deriving DecidableEq, Repr

/-- A decoded raster: dimensions plus a pixel lookup.  Models the result of
`ctx.getImageData` on a canvas of the given size. -/
structure Image where
  width : Nat
  height : Nat
  pix : Nat → Nat → Color

/-- Per-frame record (source: `interface FrameData` in `src/unnamed/part_001`).
`id` is the immutable source index, `overrideImage` the optional AI
replacement raster (a base64 URL in the source, kept abstract here). -/
structure FrameData where
  id : Nat
  rotation : Int
  scale : ℚ
  flipH : Bool
  isDeleted : Bool
  overrideImage : Option String := none
deriving DecidableEq, Repr

instance : Inhabited FrameData := ⟨⟨0, 0, 1, false, false, none⟩⟩

/-- The bulk initialization
`Array.from({length: totalFrames}, (_, i) => ({id: i, rotation: 0, scale: 1,
flipH: false, isDeleted: false}))` shared by both editors (also used by the
repack commit of `part_001`). -/
def initFrames (totalFrames : Nat) : List FrameData :=
  (List.range totalFrames).map fun i =>
    { id := i, rotation := 0, scale := 1, flipH := false, isDeleted := false }

/-- `handleDrop` (identical in both editors):
no-op when no drag is in progress or source equals target, otherwise the two
records are exchanged wholesale.  JS reads `frames[target]` after writing
`frames[dragged]`, but the two indices are distinct at that point, so both
reads see the original list. -/
def handleDrop (frames : List FrameData) (draggedIndex : Option Nat)
    (targetIndex : Nat) : List FrameData :=
  match draggedIndex with
  | none => frames
  | some d =>
    if d = targetIndex then frames
    else (frames.set d (frames.getD targetIndex default)).set targetIndex
      (frames.getD d default)

/-- The background classifier shared by both smart-crop implementations
(`src/unnamed/part_001` lines 216-221, `SpritePreview.tsx` lines 466-471):
each channel differs from the sampled background pixel by strictly less
than the fixed threshold 40. -/
def isBackground (bgPixel : Color) (r g b : Nat) : Bool :=
  ((r : Int) - (bgPixel.r : Int)).natAbs < 40 &&
  ((g : Int) - (bgPixel.g : Int)).natAbs < 40 &&
  ((b : Int) - (bgPixel.b : Int)).natAbs < 40

/-- Modelled from the spec (4.3): squared Euclidean RGB distance, the metric
the spec's `isBackground(pixel, referencePixel, tolerancePercent)` contract
is stated in.  No Euclidean-distance classifier exists in the source; this
definition only serves to compare the spec's formula with the code's. -/
def colorDistSq (bgPixel : Color) (r g b : Nat) : Int :=
  ((r : Int) - (bgPixel.r : Int)) ^ 2 +
  ((g : Int) - (bgPixel.g : Int)) ^ 2 +
  ((b : Int) - (bgPixel.b : Int)) ^ 2

/-! ## Pixel scans -/

/-- Mutable accumulator of the bounds-detection loops:
`let minX = frameW, minY = frameH, maxX = 0, maxY = 0; let hasContent = false`. -/
structure ScanAcc where
  minX : Nat
  minY : Nat
  maxX : Nat
  maxY : Nat
  hasContent : Bool
deriving DecidableEq, Repr

/-- One iteration of the scan loop body (identical text in both editors):
`if (!isBackground(data[i], data[i+1], data[i+2])) { if (x < minX) minX = x;
if (x > maxX) maxX = x; if (y < minY) minY = y; if (y > maxY) maxY = y;
hasContent = true; }`. -/
def scanPixel (isBg : Color → Bool) (img : Image) (acc : ScanAcc)
    (x y : Nat) : ScanAcc :=
  if !(isBg (img.pix x y)) then
    { minX := if x < acc.minX then x else acc.minX
      minY := if y < acc.minY then y else acc.minY
      maxX := if x > acc.maxX then x else acc.maxX
      maxY := if y > acc.maxY then y else acc.maxY
      hasContent := true }
  else acc

/-- Uncurried scan step, used to reason about the nested loops as a single
fold over the list of visited coordinates. -/
def scanStep (isBg : Color → Bool) (img : Image) (acc : ScanAcc)
    (p : Nat × Nat) : ScanAcc :=
  scanPixel isBg img acc p.1 p.2

/-- The coordinates visited by the exhaustive double loop
`for (y = 0; y < frameH; y++) for (x = 0; x < frameW; x++)`, in visit order. -/
def gridPairs (frameW frameH : Nat) : List (Nat × Nat) :=
  (List.range frameH).flatMap fun y => (List.range frameW).map fun x => (x, y)

/-- Per-frame exhaustive bounds scan of `part_001` (lines 239-253): stride 1
over every pixel of the rendered cell. -/
def scanFrame (frameW frameH : Nat) (isBg : Color → Bool) (img : Image) :
    ScanAcc :=
  (List.range frameH).foldl
    (fun acc y =>
      (List.range frameW).foldl (fun acc2 x => scanPixel isBg img acc2 x y) acc)
    ⟨frameW, frameH, 0, 0, false⟩

/-- The indices visited by a `for (k = 0; k < n; k += 2)` loop. -/
def stride2 (n : Nat) : List Nat :=
  (List.range n).filter fun k => k % 2 = 0

/-- One frame's contribution to the global stride-2 scan of the
`SpritePreview.tsx` smart crop (lines 500-512):
`for (y = 0; y < frameH; y += 2) for (x = 0; x < frameW; x += 2)`,
accumulating into the shared global bounds. -/
def scanFrameStride2 (frameW frameH : Nat) (isBg : Color → Bool)
    (img : Image) (acc : ScanAcc) : ScanAcc :=
  (stride2 frameH).foldl
    (fun a y => (stride2 frameW).foldl (fun a2 x => scanPixel isBg img a2 x y) a)
    acc

/-! ## Canvas transform pipeline -/

/-- What a `drawImage` call draws: a rectangle of the source sheet, or a
frame's override image. -/
inductive DrawSrc
  | sheet (sx sy sw sh : ℚ)
  | overrideImg (ref : String)
deriving DecidableEq, Repr

/-- The canvas-context commands issued by the render pipelines. `rotateDeg d`
models `ctx.rotate(d * Math.PI / 180)` with the degree amount kept symbolic. -/
inductive CanvasOp
  | save
  | restore
  | clearRect (x y w h : ℚ)
  | translate (x y : ℚ)
  | rotateDeg (deg : Int)
  | scaleXY (sx sy : ℚ)
  | drawImage (src : DrawSrc) (dx dy dw dh : ℚ)
deriving DecidableEq, Repr

/-- 2D affine transform in canvas order: a point `(x, y)` maps to
`(a*x + c*y + e, b*x + d*y + f)`. -/
structure Affine where
  a : ℚ
  b : ℚ
  c : ℚ
  d : ℚ
  e : ℚ
  f : ℚ
deriving DecidableEq, Repr

def Affine.idT : Affine := ⟨1, 0, 0, 1, 0, 0⟩

/-- `m.comp t` applies `t` first and `m` second; canvas context calls
multiply the current transform on the right, i.e. `cur := cur.comp step`. -/
def Affine.comp (m t : Affine) : Affine :=
  ⟨m.a * t.a + m.c * t.b, m.b * t.a + m.d * t.b,
   m.a * t.c + m.c * t.d, m.b * t.c + m.d * t.d,
   m.a * t.e + m.c * t.f + m.e, m.b * t.e + m.d * t.f + m.f⟩

def translateT (x y : ℚ) : Affine := ⟨1, 0, 0, 1, x, y⟩

def scaleT (sx sy : ℚ) : Affine := ⟨sx, 0, 0, sy, 0, 0⟩

/-- A draw recorded together with the transform in force when it was issued:
this is exactly what determines the drawn pixels, so two op sequences with
equal draw events render identically. -/
structure DrawEvent where
  transform : Affine
  src : DrawSrc
  dx : ℚ
  dy : ℚ
  dw : ℚ
  dh : ℚ
deriving DecidableEq, Repr

structure CtxState where
  current : Affine
  stack : List Affine
  events : List DrawEvent

/-- Canvas-context semantics of one command, parametric in the meaning
`rotSem` of a rotation by a given number of degrees (the theorems below hold
for every interpretation of rotation, so the trigonometry never matters). -/
def runOp (rotSem : Int → Affine) (s : CtxState) : CanvasOp → CtxState
  | .save => { s with stack := s.current :: s.stack }
  | .restore =>
    match s.stack with
    | [] => s
    | t :: rest => { s with current := t, stack := rest }
  | .clearRect _ _ _ _ => s
  | .translate x y => { s with current := s.current.comp (translateT x y) }
  | .rotateDeg d => { s with current := s.current.comp (rotSem d) }
  | .scaleXY sx sy => { s with current := s.current.comp (scaleT sx sy) }
  | .drawImage src dx dy dw dh =>
    { s with events := s.events ++ [⟨s.current, src, dx, dy, dw, dh⟩] }

def drawEvents (rotSem : Int → Affine) (ops : List CanvasOp) : List DrawEvent :=
  (ops.foldl (runOp rotSem) ⟨Affine.idT, [], []⟩).events

/-- The `drawImage` call shared by all render sites: override image if one is
in force, otherwise the source-sheet cell of `frame.id`, drawn centered. -/
def drawCallOf (frameW frameH : ℚ) (cols : Nat) (frame : FrameData)
    (useOverride : Bool) : CanvasOp :=
  if useOverride then
    .drawImage (.overrideImg (frame.overrideImage.getD ""))
      (-(frameW / 2)) (-(frameH / 2)) frameW frameH
  else
    .drawImage
      (.sheet (((frame.id % cols : Nat) : ℚ) * frameW)
        (((frame.id / cols : Nat) : ℚ) * frameH) frameW frameH)
      (-(frameW / 2)) (-(frameH / 2)) frameW frameH

/-- A per-frame content bounding rectangle as pushed onto `frameBounds` by
the `part_001` smart crop: position, size and a content flag (deleted and
content-free frames get the zero rectangle with `hasContent = false`). -/
structure ContentRect where
  x : Nat
  y : Nat
  w : Nat
  h : Nat
  hasContent : Bool
deriving DecidableEq, Repr

/-- One frame drawn by the repack loop: which record, its content bounds,
the packed output slot, and the centered destination of the crop. -/
structure Placement where
  frame : FrameData
  bounds : ContentRect
  packedIndex : Nat
  destX : ℚ
  destY : ℚ
deriving DecidableEq, Repr

/-- A full-canvas background fill (`fillStyle := color; fillRect x y w h`). -/
structure FillRect where
  x : Nat
  y : Nat
  w : Nat
  h : Nat
  color : Color
deriving DecidableEq, Repr

/-- The sheet produced by a smart crop: background reference, output cell
size, canvas size, the initial background fill, and the sequence of frame
draws. -/
structure RepackOut where
  bgPixel : Color
  outW : Nat
  outH : Nat
  canvasW : Nat
  canvasH : Nat
  fill : FillRect
  draws : List Placement

namespace MainEditor

/-! Embedding of the richer frame editor, `src/unnamed/part_001`. -/

/-- Canvas commands of `renderFrameToTemp` (lines 183-209): clear, save,
translate to the scratch-cell center, rotate, flip-scale, uniform scale,
draw the override image or the frame's source cell centered, restore.
`useOverride` stands for `overrideImages.has(frame.id)`. -/
def renderFrameToTempOps (frameW frameH : ℚ) (cols : Nat) (frame : FrameData)
    (useOverride : Bool) : List CanvasOp :=
  [.clearRect 0 0 frameW frameH,
   .save,
   .translate (frameW / 2) (frameH / 2),
   .rotateDeg frame.rotation,
   .scaleXY (if frame.flipH then -1 else 1) 1,
   .scaleXY frame.scale frame.scale,
   drawCallOf frameW frameH cols frame useOverride,
   .restore]

/-- Canvas commands issued by `handleSave` (lines 371-407) for one surviving
frame placed at `packedIndex`. -/
def saveFrameOps (frameW frameH : ℚ) (cols : Nat) (frame : FrameData)
    (packedIndex : Nat) (useOverride : Bool) : List CanvasOp :=
  let destCenterX : ℚ := ((packedIndex % cols : Nat) : ℚ) * frameW + frameW / 2
  let destCenterY : ℚ := ((packedIndex / cols : Nat) : ℚ) * frameH + frameH / 2
  [.save,
   .translate destCenterX destCenterY,
   .rotateDeg frame.rotation,
   .scaleXY (if frame.flipH then -1 else 1) 1,
   .scaleXY frame.scale frame.scale,
   drawCallOf frameW frameH cols frame useOverride,
   .restore]

/-- The placement loop of `handleSave` (lines 369-407): walk frames in
display order, skip deleted records, and give each survivor the next packed
output slot (`packedIndex++` only on survivors). -/
def savePlacements : List FrameData → Nat → List (FrameData × Nat)
  | [], _ => []
  | f :: fs, packedIndex =>
    if f.isDeleted then savePlacements fs packedIndex
    else (f, packedIndex) :: savePlacements fs (packedIndex + 1)

/-- `frames.find(f => !f.isDeleted) || frames[0]` (line 212): the frame whose
rendered output supplies the background reference pixel. -/
def firstVisibleFrame (frames : List FrameData) : FrameData :=
  match frames.find? (fun f => !f.isDeleted) with
  | some f => f
  | none => frames.getD 0 default

/-- The rectangle pushed for one frame by the analysis loop (lines 229-264):
deleted frames get the zero rectangle, otherwise the frame is rendered and
scanned exhaustively and its tight bounds (or the zero rectangle when
nothing exceeds the background tolerance) are recorded. -/
def boundsOf (render : FrameData → Image) (frameW frameH : Nat)
    (isBg : Color → Bool) (f : FrameData) : ContentRect :=
  if f.isDeleted then ⟨0, 0, 0, 0, false⟩
  else
    let s := scanFrame frameW frameH isBg (render f)
    if s.hasContent then
      ⟨s.minX, s.minY, s.maxX - s.minX + 1, s.maxY - s.minY + 1, true⟩
    else ⟨0, 0, 0, 0, false⟩

/-- The analysis loop of `handleSmartCrop` (lines 223-264): builds the
`frameBounds` list and threads the running maxima `maxContentW`,
`maxContentH` (updated by `if (w > maxContentW) maxContentW = w` only for
frames with content). -/
def analyzeFrames (render : FrameData → Image) (frameW frameH : Nat)
    (isBg : Color → Bool) :
    List FrameData → Nat → Nat → List ContentRect × Nat × Nat
  | [], maxContentW, maxContentH => ([], maxContentW, maxContentH)
  | f :: fs, maxContentW, maxContentH =>
    if f.isDeleted then
      let r := analyzeFrames render frameW frameH isBg fs maxContentW maxContentH
      (⟨0, 0, 0, 0, false⟩ :: r.1, r.2)
    else
      let s := scanFrame frameW frameH isBg (render f)
      if s.hasContent then
        let w := s.maxX - s.minX + 1
        let h := s.maxY - s.minY + 1
        let mw := if w > maxContentW then w else maxContentW
        let mh := if h > maxContentH then h else maxContentH
        let r := analyzeFrames render frameW frameH isBg fs mw mh
        (⟨s.minX, s.minY, w, h, true⟩ :: r.1, r.2)
      else
        let r := analyzeFrames render frameW frameH isBg fs maxContentW maxContentH
        (⟨0, 0, 0, 0, false⟩ :: r.1, r.2)

/-- Lines 266-275: fall back to the full cell when no frame had content
(the source tests `maxContentW === 0` for both axes), then clamp the padded
maxima to the cell: `maxContentW = Math.min(frameW, maxContentW + padding*2)`
with `padding = 4`. -/
def outputCell (frameW frameH maxContentW maxContentH : Nat) : Nat × Nat :=
  let mw := if maxContentW = 0 then frameW else maxContentW
  let mh := if maxContentW = 0 then frameH else maxContentH
  (min frameW (mw + 4 * 2), min frameH (mh + 4 * 2))

/-- The repack loop of `handleSmartCrop` (lines 292-324): walk
frame/bounds pairs in display order, skip frames that are deleted or have
no content without advancing `packedIndex`, and draw each survivor's crop
centered in the next sequential output cell. -/
def repackPlacements (cols outW outH : Nat) :
    List (FrameData × ContentRect) → Nat → List Placement
  | [], _ => []
  | (f, b) :: rest, packedIndex =>
    if f.isDeleted || !b.hasContent then
      repackPlacements cols outW outH rest packedIndex
    else
      { frame := f
        bounds := b
        packedIndex := packedIndex
        destX := (((packedIndex % cols) * outW : Nat) : ℚ) +
          ((outW : ℚ) - (b.w : ℚ)) / 2
        destY := (((packedIndex / cols) * outH : Nat) : ℚ) +
          ((outH : ℚ) - (b.h : ℚ)) / 2 } ::
      repackPlacements cols outW outH rest (packedIndex + 1)

/-- The smart crop's `bgPixel` (lines 211-214): origin pixel of the first
visible frame's rendered output. -/
def bgColor (render : FrameData → Image) (frames : List FrameData) : Color :=
  (render (firstVisibleFrame frames)).pix 0 0

/-- The smart crop's local `isBackground` closure (lines 216-221), capturing
the sampled `bgPixel`. -/
def bgClassifier (render : FrameData → Image) (frames : List FrameData) :
    Color → Bool :=
  fun c => isBackground (bgColor render frames) c.r c.g c.b

/-- The full analysis pass (lines 223-264), run against the shared
background classifier with both maxima starting at 0. -/
def analysis (render : FrameData → Image) (frameW frameH : Nat)
    (frames : List FrameData) : List ContentRect × Nat × Nat :=
  analyzeFrames render frameW frameH (bgClassifier render frames) frames 0 0

/-- `handleSmartCrop` of `part_001` (lines 152-342), start to the finished
canvas: background reference from the first visible frame's rendered origin
pixel, per-frame bounds, output cell size, background fill of the whole new
canvas, and the packed sequence of centered draws. -/
def smartCrop (render : FrameData → Image) (rows cols frameW frameH : Nat)
    (frames : List FrameData) : RepackOut :=
  let a := analysis render frameW frameH frames
  let cell := outputCell frameW frameH a.2.1 a.2.2
  { bgPixel := bgColor render frames
    outW := cell.1
    outH := cell.2
    canvasW := cell.1 * cols
    canvasH := cell.2 * rows
    fill := ⟨0, 0, cell.1 * cols, cell.2 * rows, bgColor render frames⟩
    draws := repackPlacements cols cell.1 cell.2 (frames.zip a.1) 0 }

/-- The state commit at the end of `handleSmartCrop` (lines 326-340): the
frame list is replaced by fresh identity records and the repacked canvas
becomes the new baseline image source. -/
def smartCropCommit (render : FrameData → Image) (rows cols frameW frameH : Nat)
    (frames : List FrameData) : List FrameData × RepackOut :=
  (initFrames (rows * cols), smartCrop render rows cols frameW frameH frames)

end MainEditor

namespace AltEditor

/-! Embedding of the simpler frame editor appended in
`src/components/SpritePreview.tsx`. -/

/-- Lines 462-464: the first grid cell of the source image is drawn to the
scratch canvas untransformed and its origin pixel is read back — so the
background reference is `img.pix 0 0`, regardless of frame order, transforms
or deletions. -/
def bgPixel (img : Image) : Color := img.pix 0 0

/-- The single global analysis loop (lines 473-513): every non-deleted frame
is rendered and scanned with stride 2 into one shared accumulator. -/
def globalScan (frameW frameH : Nat) (isBg : Color → Bool)
    (render : FrameData → Image) (frames : List FrameData) : ScanAcc :=
  frames.foldl
    (fun acc f =>
      if f.isDeleted then acc
      else scanFrameStride2 frameW frameH isBg (render f) acc)
    ⟨frameW, frameH, 0, 0, false⟩

/-- Lines 515-527: full-cell fallback when nothing was detected, then the
padding `minX = Math.max(0, minX - 4)`, `maxX = Math.min(frameW, maxX + 4)`
(similarly for y), and the new cell size `newFrameW = maxX - minX`. -/
def cropRect (frameW frameH : Nat) (isBg : Color → Bool)
    (render : FrameData → Image) (frames : List FrameData) :
    Nat × Nat × Nat × Nat :=
  let s := globalScan frameW frameH isBg render frames
  let minX := if !s.hasContent then 0 else s.minX
  let minY := if !s.hasContent then 0 else s.minY
  let maxX := if !s.hasContent then frameW else s.maxX
  let maxY := if !s.hasContent then frameH else s.maxY
  (max 0 (minX - 4), max 0 (minY - 4), min frameW (maxX + 4), min frameH (maxY + 4))

/-- The new per-cell width `newFrameW = maxX - minX` after padding. -/
def newFrameW (frameW frameH : Nat) (isBg : Color → Bool)
    (render : FrameData → Image) (frames : List FrameData) : Nat :=
  let r := cropRect frameW frameH isBg render frames
  r.2.2.1 - r.1

/-- The smart crop built around the global rectangle, entry for the
background classifier: the reference is the source image's origin pixel. -/
def cropIsBg (img : Image) : Color → Bool :=
  fun c => isBackground (bgPixel img) c.r c.g c.b

/-- The placement loop of this variant's `handleSave` (lines 599-626):
`frames.forEach((frame, outputIndex) => { if (frame.isDeleted) return; ...})`
— the destination slot is the record's array index, which advances for
deleted frames too. -/
def savePlacements : List FrameData → Nat → List (FrameData × Nat)
  | [], _ => []
  | f :: fs, outputIndex =>
    if f.isDeleted then savePlacements fs (outputIndex + 1)
    else (f, outputIndex) :: savePlacements fs (outputIndex + 1)

/-- Canvas commands issued by this variant's `handleSave` (lines 613-625)
for one surviving frame at array index `outputIndex`; it has no override
images. -/
def saveFrameOps (frameW frameH : ℚ) (cols : Nat) (frame : FrameData)
    (outputIndex : Nat) : List CanvasOp :=
  let destCenterX : ℚ := ((outputIndex % cols : Nat) : ℚ) * frameW + frameW / 2
  let destCenterY : ℚ := ((outputIndex / cols : Nat) : ℚ) * frameH + frameH / 2
  [.save,
   .translate destCenterX destCenterY,
   .rotateDeg frame.rotation,
   .scaleXY (if frame.flipH then -1 else 1) 1,
   .scaleXY frame.scale frame.scale,
   drawCallOf frameW frameH cols frame false,
   .restore]

end AltEditor

/-! ## Playback loop -/

/-- The animation-loop state of `SpritePreview.tsx` (lines 72-90):
the current frame cursor and the timestamp of the last advance
(`lastTime`, initialized to 0 when the effect starts). -/
structure AnimState where
  frameIndex : Nat
  lastTime : ℚ
deriving DecidableEq, Repr

/-- One `requestAnimationFrame` callback (lines 79-84):
`if (timestamp - lastTime >= interval) { setFrameIndex(prev => (prev + 1) %
activeFrameCount); lastTime = timestamp; }` with `interval = 1000 / fps`. -/
def animStep (fps activeFrameCount : Nat) (s : AnimState)
    (timestamp : ℚ) : AnimState :=
  if 1000 / (fps : ℚ) ≤ timestamp - s.lastTime then
    { frameIndex := (s.frameIndex + 1) % activeFrameCount, lastTime := timestamp }
  else s

/-- The callback loop run over a whole timestamp schedule. -/
def animRun (fps activeFrameCount : Nat) (s : AnimState)
    (timestamps : List ℚ) : AnimState :=
  timestamps.foldl (animStep fps activeFrameCount) s

/-- Measurement of how many callbacks of a schedule actually advanced the
cursor (the `if` of `animStep` fired; when it does not fire the step leaves
the state unchanged, so the recursion can uniformly continue from
`animStep`). -/
def animAdvances (fps activeFrameCount : Nat) :
    AnimState → List ℚ → Nat
  | _, [] => 0
  | s, t :: ts =>
    (if 1000 / (fps : ℚ) ≤ t - s.lastTime then 1 else 0) +
      animAdvances fps activeFrameCount (animStep fps activeFrameCount s t) ts

namespace SpecModel

/-! Definitions following the specification's words, used to state the
refinement claims; each is compared against the corresponding embedded
source definition in the theorems below. -/

/-- Modelled from the spec (4.6, render pipeline): translate to the
destination center, rotate, ONE combined scale of X by
`(flipHorizontal ? -1 : 1) * scale` and of Y by `scale`, draw the source
cell or override centered at the new origin sized cellW × cellH, restore. -/
def renderOps (cx cy cellW cellH : ℚ) (cols : Nat) (frame : FrameData)
    (useOverride : Bool) : List CanvasOp :=
  [.save,
   .translate cx cy,
   .rotateDeg frame.rotation,
   .scaleXY ((if frame.flipH then -1 else 1) * frame.scale) frame.scale,
   drawCallOf cellW cellH cols frame useOverride,
   .restore]

/-- Modelled from the spec (4.5 step 2): the first non-deleted frame in
display order, falling back to the frame at position 0 when every frame is
deleted. -/
def bgFrame (frames : List FrameData) : FrameData :=
  match frames.filter (fun f => !f.isDeleted) with
  | [] => frames.getD 0 default
  | f :: _ => f

/-- The content-bound widths of the non-deleted frames that have content,
in display order (spec 4.5 steps 3-4 take the max over these). -/
def contentWidths (render : FrameData → Image) (frameW frameH : Nat)
    (isBg : Color → Bool) (frames : List FrameData) : List Nat :=
  frames.filterMap fun f =>
    if f.isDeleted then none
    else
      let s := scanFrame frameW frameH isBg (render f)
      if s.hasContent then some (s.maxX - s.minX + 1) else none

/-- The content-bound heights, analogously. -/
def contentHeights (render : FrameData → Image) (frameW frameH : Nat)
    (isBg : Color → Bool) (frames : List FrameData) : List Nat :=
  frames.filterMap fun f =>
    if f.isDeleted then none
    else
      let s := scanFrame frameW frameH isBg (render f)
      if s.hasContent then some (s.maxY - s.minY + 1) else none

end SpecModel

/-! ## Concrete fixtures for counterexamples and witnesses -/

/-- Rendering of an identity-transform, override-free frame: the scratch
canvas then holds exactly the frame's source cell
(`drawImage(img, srcCol*frameW, srcRow*frameH, frameW, frameH, ...)` with
the identity transform), which this crop models. -/
def cropCell (img : Image) (cols frameW frameH : Nat) (f : FrameData) : Image :=
  ⟨frameW, frameH,
   fun x y => img.pix ((f.id % cols) * frameW + x) ((f.id / cols) * frameH + y)⟩

/-- A 1×2 sheet whose two cell-origin pixels differ: cell 0 is red, cell 1
is blue. -/
def imgTwoTone : Image :=
  ⟨20, 10, fun x _ => if x < 10 then ⟨255, 0, 0⟩ else ⟨0, 0, 255⟩⟩

/-- Display order after frame 0 was deleted: the first non-deleted frame in
display order is the record with source id 1. -/
def framesDel0 : List FrameData :=
  [{ id := 0, rotation := 0, scale := 1, flipH := false, isDeleted := true },
   { id := 1, rotation := 0, scale := 1, flipH := false, isDeleted := false }]

/-- A white 1×2 sheet with one black pixel in each 10×10 cell: at (2,2) of
cell 0 and at (8,2) of cell 1 (both on even coordinates, so even a stride-2
scan sees them). -/
def imgTwoDots : Image :=
  ⟨20, 10, fun x y =>
    if (x = 2 && y = 2) || (x = 18 && y = 2) then ⟨0, 0, 0⟩
    else ⟨255, 255, 255⟩⟩

/-- A white 4×4 single-cell sheet whose only content pixel sits at the odd
coordinates (1,1), invisible to a stride-2 scan. -/
def imgOddDot : Image :=
  ⟨4, 4, fun x y => if x = 1 && y = 1 then ⟨0, 0, 0⟩ else ⟨255, 255, 255⟩⟩

/-- A realistic 60 Hz callback schedule covering exactly 375 ms of playback:
ticks every 16 ms up to 368 and a final callback at 375. -/
def sixtyHzTicks : List ℚ :=
  [16, 32, 48, 64, 80, 96, 112, 128, 144, 160, 176, 192,
   208, 224, 240, 256, 272, 288, 304, 320, 336, 352, 368, 375]

/-! ## C2 — background classifier -/

/-- C2 counterexample: the source classifier is not a Euclidean-distance
test for any threshold.  Against a black reference, the pixel (39,39,39)
(squared distance 4563) is classified background while (40,0,0) (squared
distance 1600) is not, so no distance cut-off can reproduce the
classifier's truth set. -/
theorem isBackground_no_euclidean_threshold :
    ¬ ∃ D : ℚ, ∀ r g b : Nat,
      (isBackground ⟨0, 0, 0⟩ r g b = true ↔
        ((colorDistSq ⟨0, 0, 0⟩ r g b : Int) : ℚ) < D) := by
  rintro ⟨D, hD⟩
  have h1 : ((colorDistSq ⟨0, 0, 0⟩ 39 39 39 : Int) : ℚ) < D :=
    (hD 39 39 39).mp (by decide)
  have h2 : ¬ ((colorDistSq ⟨0, 0, 0⟩ 40 0 0 : Int) : ℚ) < D := by
    intro h
    have hbg := (hD 40 0 0).mpr h
    simp [isBackground] at hbg
  have e1 : ((colorDistSq ⟨0, 0, 0⟩ 39 39 39 : Int) : ℚ) = 4563 := by
    norm_num [colorDistSq]
  have e2 : ((colorDistSq ⟨0, 0, 0⟩ 40 0 0 : Int) : ℚ) = 1600 := by
    norm_num [colorDistSq]
  rw [e1] at h1
  rw [e2] at h2
  exact h2 (by linarith)

/-- C2 (amended): the classifier used by both smart-crop paths is the fixed
per-channel test with constant 40 — equivalently a Chebyshev-distance ball
of radius 40 in RGB space — not a Euclidean-distance test. -/
theorem isBackground_iff_chebyshev_lt_40 (bg : Color) (r g b : Nat) :
    isBackground bg r g b = true ↔
      max (max ((r : Int) - (bg.r : Int)).natAbs ((g : Int) - (bg.g : Int)).natAbs)
        ((b : Int) - (bg.b : Int)).natAbs < 40 := by
  simp only [isBackground, Bool.and_eq_true, decide_eq_true_eq, Nat.max_lt]

/-! ## C7 — transform order of the render pipeline -/

theorem Affine.comp_assoc (x y z : Affine) :
    (x.comp y).comp z = x.comp (y.comp z) := by
  cases x
  cases y
  cases z
  simp only [Affine.comp, Affine.mk.injEq]
  refine ⟨by ring, by ring, by ring, by ring, by ring, by ring⟩

/-- The two consecutive `ctx.scale` calls of the source — flip then uniform
scale — compose to the spec's single scale step, under any prior transform. -/
theorem comp_scale_scale (x : Affine) (a s : ℚ) :
    (x.comp (scaleT a 1)).comp (scaleT s s) = x.comp (scaleT (a * s) s) := by
  cases x
  simp only [Affine.comp, scaleT, Affine.mk.injEq]
  refine ⟨by ring, by ring, by ring, by ring, by ring, by ring⟩

/-- C7: every render site — the repack scratch `renderFrameToTemp` of
`part_001`, the packed export `handleSave` of `part_001`, and the export
`handleSave` of the `SpritePreview.tsx` variant — produces exactly the draw
of the spec's 4.6 pipeline (translate to the destination cell center, rotate
by the record's degrees, scale X by `(flipH ? -1 : 1) * scale` and Y by
`scale`, draw the source cell or override centered, sized cellW × cellH,
restore), for every interpretation `rotSem` of rotation. -/
theorem render_pipeline_matches_spec (rotSem : Int → Affine)
    (frameW frameH : ℚ) (cols : Nat) (frame : FrameData)
    (useOverride : Bool) (packedIndex outputIndex : Nat) :
    drawEvents rotSem
        (MainEditor.renderFrameToTempOps frameW frameH cols frame useOverride) =
      drawEvents rotSem
        (SpecModel.renderOps (frameW / 2) (frameH / 2) frameW frameH cols frame
          useOverride)
    ∧ drawEvents rotSem
        (MainEditor.saveFrameOps frameW frameH cols frame packedIndex useOverride) =
      drawEvents rotSem
        (SpecModel.renderOps
          (((packedIndex % cols : Nat) : ℚ) * frameW + frameW / 2)
          (((packedIndex / cols : Nat) : ℚ) * frameH + frameH / 2)
          frameW frameH cols frame useOverride)
    ∧ drawEvents rotSem
        (AltEditor.saveFrameOps frameW frameH cols frame outputIndex) =
      drawEvents rotSem
        (SpecModel.renderOps
          (((outputIndex % cols : Nat) : ℚ) * frameW + frameW / 2)
          (((outputIndex / cols : Nat) : ℚ) * frameH + frameH / 2)
          frameW frameH cols frame false) := by
  refine ⟨?_, ?_, ?_⟩ <;>
  · cases useOverride <;>
    · simp only [MainEditor.renderFrameToTempOps, MainEditor.saveFrameOps,
        AltEditor.saveFrameOps, SpecModel.renderOps, drawCallOf, drawEvents,
        List.foldl_cons, List.foldl_nil, runOp, if_true, if_false,
        Bool.false_eq_true, List.nil_append, List.cons.injEq,
        DrawEvent.mk.injEq, and_true, true_and]
      exact comp_scale_scale _ _ _

/-! ## C9 — playback advance timing -/

/-- C9 counterexample: under a monotonically increasing clock it is not
true that 375 ms of playback advances the cursor exactly 3 steps.  A
realistic 60 Hz schedule (16, 32, ..., 368, 375) is strictly monotone and
spans exactly 375 ms, yet only 2 callbacks find 125 ms elapsed since the
last advance (at t = 128 and t = 256), so the cursor ends at 2, not 0. -/
theorem anim_375ms_not_three_steps :
    List.Chain' (· < ·) sixtyHzTicks ∧
    sixtyHzTicks.getLast? = some 375 ∧
    (animRun 8 3 ⟨0, 0⟩ sixtyHzTicks).frameIndex = 2 ∧
    animAdvances 8 3 ⟨0, 0⟩ sixtyHzTicks = 2 ∧
    (2 : Nat) ≠ 0 := by
  refine ⟨?_, ?_, ?_, ?_, by decide⟩
  · norm_num [sixtyHzTicks, List.chain'_cons]
  · norm_num [sixtyHzTicks]
  · norm_num [animRun, animStep, sixtyHzTicks]
  · norm_num [animAdvances, animStep, sixtyHzTicks]

/-- C9 (amended): a callback advances the cursor by one step modulo
`activeFrameCount` exactly when at least `1000/fps` ms have elapsed since
the last advance, and never by more than one step per callback; a schedule
hitting the 125 ms boundaries (callbacks at exactly 125, 250, 375) advances
exactly 3 steps over 375 ms of playback with `fps = 8`,
`activeFrameCount = 3`, returning the cursor to 0 — but an arbitrary
monotone clock may advance fewer steps. -/
theorem anim_advance_characterization (fps n : Nat) (s : AnimState) (t : ℚ) :
    ((1000 / (fps : ℚ) ≤ t - s.lastTime →
        animStep fps n s t = ⟨(s.frameIndex + 1) % n, t⟩)
      ∧ (¬ 1000 / (fps : ℚ) ≤ t - s.lastTime → animStep fps n s t = s))
    ∧ (animRun 8 3 ⟨0, 0⟩ [125, 250, 375] = ⟨0, 375⟩
        ∧ animAdvances 8 3 ⟨0, 0⟩ [125, 250, 375] = 3) := by
  refine ⟨⟨?_, ?_⟩, ?_, ?_⟩
  · intro h
    simp [animStep, h]
  · intro h
    simp [animStep, h]
  · norm_num [animRun, animStep]
  · norm_num [animAdvances, animStep]

/-- Closed instance of the step characterization: at `t = 125` from a fresh
state the cursor advances to 1, at `t = 100` nothing happens. -/
theorem anim_advance_characterization_witness :
    animStep 8 3 ⟨0, 0⟩ 125 = ⟨1, 125⟩ ∧ animStep 8 3 ⟨0, 0⟩ 100 = ⟨0, 0⟩ :=
  ⟨(anim_advance_characterization 8 3 ⟨0, 0⟩ 125).1.1 (by norm_num),
   (anim_advance_characterization 8 3 ⟨0, 0⟩ 100).1.2 (by norm_num)⟩

/-! ## List lemmas for the drag-drop swap -/

theorem getD_eq_getElem {α : Type _} [Inhabited α] (l : List α) {n : Nat}
    (h : n < l.length) : l.getD n default = l[n] := by
  simp [List.getD_eq_getElem?_getD, List.getElem?_eq_getElem h]

theorem set_getElem_self {α : Type _} :
    ∀ (l : List α) (n : Nat) (h : n < l.length), l.set n l[n] = l
  | [], n, h => by simp at h
  | a :: l, 0, _ => by simp
  | a :: l, n + 1, h => by
    simp only [List.getElem_cons_succ, List.set_cons_succ, List.cons.injEq,
      true_and]
    exact set_getElem_self l n (Nat.lt_of_succ_lt_succ h)

/-- Moving the element at position `j` to the front while overwriting its
slot is a permutation: `xs[j] :: xs.set j x ~ x :: xs`. -/
theorem getElem_cons_set_perm {α : Type _} :
    ∀ (xs : List α) (j : Nat) (h : j < xs.length) (x : α),
      List.Perm (xs[j] :: xs.set j x) (x :: xs)
  | [], j, h, _ => by simp at h
  | y :: ys, 0, _, x => by
    simpa using List.Perm.swap x y ys
  | y :: ys, j + 1, h, x => by
    have hj : j < ys.length := Nat.lt_of_succ_lt_succ h
    simp only [List.getElem_cons_succ, List.set_cons_succ]
    exact (List.Perm.swap y ys[j] (ys.set j x)).trans
      ((List.Perm.cons y (getElem_cons_set_perm ys j hj x)).trans
        (List.Perm.swap x y ys))

/-- Exchanging two in-bounds positions wholesale is a permutation. -/
theorem set_set_swap_perm {α : Type _} :
    ∀ (l : List α) (a b : Nat) (ha : a < l.length) (hb : b < l.length),
      List.Perm ((l.set a l[b]).set b l[a]) l
  | [], a, _, ha, _ => by simp at ha
  | x :: xs, 0, 0, _, _ => by simp
  | x :: xs, 0, j + 1, _, hb => by
    simp only [List.getElem_cons_succ, List.getElem_cons_zero,
      List.set_cons_zero, List.set_cons_succ]
    exact getElem_cons_set_perm xs j (Nat.lt_of_succ_lt_succ hb) x
  | x :: xs, i + 1, 0, ha, _ => by
    simp only [List.getElem_cons_succ, List.getElem_cons_zero,
      List.set_cons_zero, List.set_cons_succ]
    exact getElem_cons_set_perm xs i (Nat.lt_of_succ_lt_succ ha) x
  | x :: xs, i + 1, j + 1, ha, hb => by
    simp only [List.getElem_cons_succ, List.set_cons_succ]
    exact List.Perm.cons x
      (set_set_swap_perm xs i j (Nat.lt_of_succ_lt_succ ha) (Nat.lt_of_succ_lt_succ hb))

/-- `handleDrop` never changes the multiset of records: it is the identity
or an in-bounds swap. -/
theorem handleDrop_perm (frames : List FrameData) (dragged : Option Nat)
    (target : Nat) (hd : ∀ d, dragged = some d → d < frames.length)
    (ht : target < frames.length) :
    List.Perm (handleDrop frames dragged target) frames := by
  match dragged with
  | none => exact List.Perm.refl _
  | some d =>
    have hdl : d < frames.length := hd d rfl
    by_cases hdt : d = target
    · simp [handleDrop, hdt]
    · simp only [handleDrop, if_neg hdt]
      rw [getD_eq_getElem frames ht, getD_eq_getElem frames hdl]
      exact set_set_swap_perm frames d target hdl ht

/-- Performing the same in-bounds exchange twice restores the original list. -/
theorem swap_twice_eq {α : Type _} [Inhabited α] (l : List α) (a b : Nat)
    (ha : a < l.length) (hb : b < l.length) (hab : a ≠ b) :
    ((((l.set a (l.getD b default)).set b (l.getD a default)).set a
        (((l.set a (l.getD b default)).set b (l.getD a default)).getD b default)).set b
        (((l.set a (l.getD b default)).set b (l.getD a default)).getD a default)) = l := by
  rw [getD_eq_getElem l hb, getD_eq_getElem l ha]
  have hb1 : b < ((l.set a l[b]).set b l[a]).length := by simpa using hb
  have ha1 : a < ((l.set a l[b]).set b l[a]).length := by simpa using ha
  rw [getD_eq_getElem _ hb1, getD_eq_getElem _ ha1]
  have e1 : ((l.set a l[b]).set b l[a])[b] = l[a] := by
    simp
  have e2 : ((l.set a l[b]).set b l[a])[a] = l[b] := by
    rw [List.getElem_set_ne (Ne.symm hab)]
    simp
  rw [e1, e2, List.set_comm _ _ _ (Ne.symm hab)]
  simp only [List.set_set]
  rw [set_getElem_self l a ha, set_getElem_self l b hb]

/-! ## C10 — swap is guarded and involutive -/

/-- C10: dropping with no drag in progress or onto the dragged index leaves
the sequence unchanged, and performing the same in-bounds swap twice in
succession restores the original sequence. -/
theorem handleDrop_noop_and_involutive (frames : List FrameData)
    (a b : Nat) (ha : a < frames.length) (hb : b < frames.length) :
    handleDrop frames none b = frames
    ∧ handleDrop frames (some a) a = frames
    ∧ handleDrop (handleDrop frames (some a) b) (some a) b = frames := by
  refine ⟨rfl, by simp [handleDrop], ?_⟩
  by_cases hab : a = b
  · simp [handleDrop, hab]
  · simp only [handleDrop, if_neg hab]
    exact swap_twice_eq frames a b ha hb hab

/-- Closed instance of C10 on a concrete 3-frame sequence. -/
theorem handleDrop_noop_and_involutive_witness :
    handleDrop (initFrames 3) none 1 = initFrames 3
    ∧ handleDrop (initFrames 3) (some 2) 2 = initFrames 3
    ∧ handleDrop (handleDrop (initFrames 3) (some 2) 1) (some 2) 1 =
        initFrames 3 :=
  handleDrop_noop_and_involutive (initFrames 3) 2 1 (by decide) (by decide)

/-! ## C8 — permutation invariant under drag-drop -/

/-- The fold of a whole drag-drop history over an initial sequence. -/
def applyDrops (frames : List FrameData) (ops : List (Option Nat × Nat)) :
    List FrameData :=
  ops.foldl (fun fr op => handleDrop fr op.1 op.2) frames

theorem applyDrops_perm :
    ∀ (ops : List (Option Nat × Nat)) (frames : List FrameData),
      (∀ op ∈ ops, (∀ d, op.1 = some d → d < frames.length)
        ∧ op.2 < frames.length) →
      List.Perm (applyDrops frames ops) frames
  | [], frames, _ => List.Perm.refl _
  | op :: ops, frames, h => by
    have h0 := h op (List.mem_cons_self op ops)
    have hstep : List.Perm (handleDrop frames op.1 op.2) frames :=
      handleDrop_perm frames op.1 op.2 h0.1 h0.2
    have hlen : (handleDrop frames op.1 op.2).length = frames.length :=
      hstep.length_eq
    have htail : List.Perm (applyDrops (handleDrop frames op.1 op.2) ops)
        (handleDrop frames op.1 op.2) := by
      refine applyDrops_perm ops _ ?_
      intro o ho
      have := h o (List.mem_cons_of_mem op ho)
      rw [hlen]
      exact this
    exact htail.trans hstep

/-- C8: starting from the identity initialization, any sequence of in-bounds
drag-drop swaps leaves the records a permutation of the initial identity
records; in particular the `id` (sourceIndex) values remain exactly
`0, ..., n-1`, one each, and every record's fields travel with its id
unchanged (the records themselves are preserved as a multiset). -/
theorem drag_drop_permutation_invariant (n : Nat)
    (ops : List (Option Nat × Nat))
    (h : ∀ op ∈ ops, (∀ d, op.1 = some d → d < n) ∧ op.2 < n) :
    List.Perm (applyDrops (initFrames n) ops) (initFrames n)
    ∧ List.Perm ((applyDrops (initFrames n) ops).map FrameData.id)
        (List.range n) := by
  have hlen : (initFrames n).length = n := by
    simp [initFrames]
  have hperm : List.Perm (applyDrops (initFrames n) ops) (initFrames n) := by
    refine applyDrops_perm ops (initFrames n) ?_
    intro op hop
    rw [hlen]
    exact h op hop
  refine ⟨hperm, ?_⟩
  have hids : (initFrames n).map FrameData.id = List.range n := by
    simp only [initFrames, List.map_map, Function.comp_def]
    exact List.map_id _
  have hmap := hperm.map FrameData.id
  rw [hids] at hmap
  exact hmap

/-- Closed instance of C8: a concrete drag-drop history on 4 frames. -/
theorem drag_drop_permutation_invariant_witness :
    List.Perm (applyDrops (initFrames 4) [(some 0, 2), (some 1, 3), (some 2, 2)])
        (initFrames 4)
    ∧ List.Perm
        ((applyDrops (initFrames 4) [(some 0, 2), (some 1, 3), (some 2, 2)]).map
          FrameData.id)
        (List.range 4) :=
  drag_drop_permutation_invariant 4 [(some 0, 2), (some 1, 3), (some 2, 2)]
    (by
      intro op hop
      simp only [List.mem_cons, List.not_mem_nil, or_false] at hop
      rcases hop with rfl | rfl | rfl <;>
        exact ⟨by intro d hd; simp at hd; omega, by omega⟩)

/-! ## Scan lemmas -/

/-- The nested `for y / for x` loops are one fold over the visited
coordinate pairs. -/
theorem nested_scan_eq_foldl_pairs (isBg : Color → Bool) (img : Image)
    (frameW : Nat) :
    ∀ (ys : List Nat) (acc : ScanAcc),
      ys.foldl
        (fun a y =>
          (List.range frameW).foldl (fun a2 x => scanPixel isBg img a2 x y) a)
        acc =
      (ys.flatMap fun y => (List.range frameW).map fun x => (x, y)).foldl
        (scanStep isBg img) acc
  | [], _ => rfl
  | y :: ys, acc => by
    rw [List.foldl_cons, List.flatMap_cons, List.foldl_append,
      nested_scan_eq_foldl_pairs isBg img frameW ys, List.foldl_map]
    rfl

theorem scanFrame_eq_foldl_pairs (frameW frameH : Nat) (isBg : Color → Bool)
    (img : Image) :
    scanFrame frameW frameH isBg img =
      (gridPairs frameW frameH).foldl (scanStep isBg img)
        ⟨frameW, frameH, 0, 0, false⟩ :=
  nested_scan_eq_foldl_pairs isBg img frameW (List.range frameH) _

theorem mem_gridPairs (frameW frameH x y : Nat) :
    (x, y) ∈ gridPairs frameW frameH ↔ x < frameW ∧ y < frameH := by
  constructor
  · intro h
    rcases List.mem_flatMap.mp h with ⟨y2, hy2, hx⟩
    rcases List.mem_map.mp hx with ⟨x2, hx2, heq⟩
    rcases Prod.mk.injEq .. ▸ heq with ⟨rfl, rfl⟩
    exact ⟨List.mem_range.mp hx2, List.mem_range.mp hy2⟩
  · rintro ⟨hx, hy⟩
    exact List.mem_flatMap.mpr ⟨y, List.mem_range.mpr hy,
      List.mem_map.mpr ⟨x, List.mem_range.mpr hx, rfl⟩⟩

/-- The scan flag is set iff some visited pixel fails the background test. -/
theorem foldl_scanStep_hasContent (isBg : Color → Bool) (img : Image) :
    ∀ (ps : List (Nat × Nat)) (acc : ScanAcc),
      ((ps.foldl (scanStep isBg img) acc).hasContent = true ↔
        acc.hasContent = true ∨ ∃ p ∈ ps, isBg (img.pix p.1 p.2) = false)
  | [], acc => by simp
  | p :: ps, acc => by
    rw [List.foldl_cons, foldl_scanStep_hasContent isBg img ps]
    cases hbg : isBg (img.pix p.1 p.2) with
    | false => simp [scanStep, scanPixel, hbg]
    | true => simp [scanStep, scanPixel, hbg]

/-- The scan never widens minima nor narrows maxima. -/
theorem foldl_scanStep_bounds_mono (isBg : Color → Bool) (img : Image) :
    ∀ (ps : List (Nat × Nat)) (acc : ScanAcc),
      (ps.foldl (scanStep isBg img) acc).minX ≤ acc.minX ∧
      (ps.foldl (scanStep isBg img) acc).minY ≤ acc.minY ∧
      acc.maxX ≤ (ps.foldl (scanStep isBg img) acc).maxX ∧
      acc.maxY ≤ (ps.foldl (scanStep isBg img) acc).maxY
  | [], acc => ⟨le_refl _, le_refl _, le_refl _, le_refl _⟩
  | p :: ps, acc => by
    rw [List.foldl_cons]
    have ih := foldl_scanStep_bounds_mono isBg img ps (scanStep isBg img acc p)
    have hstep : (scanStep isBg img acc p).minX ≤ acc.minX ∧
        (scanStep isBg img acc p).minY ≤ acc.minY ∧
        acc.maxX ≤ (scanStep isBg img acc p).maxX ∧
        acc.maxY ≤ (scanStep isBg img acc p).maxY := by
      unfold scanStep scanPixel
      split
      · refine ⟨?_, ?_, ?_, ?_⟩ <;> · simp only; split <;> omega
      · exact ⟨le_refl _, le_refl _, le_refl _, le_refl _⟩
    exact ⟨le_trans ih.1 hstep.1, le_trans ih.2.1 hstep.2.1,
      le_trans hstep.2.2.1 ih.2.2.1, le_trans hstep.2.2.2 ih.2.2.2⟩

/-- Every visited content pixel ends up inside the scanned rectangle. -/
theorem foldl_scanStep_cover (isBg : Color → Bool) (img : Image) :
    ∀ (ps : List (Nat × Nat)) (acc : ScanAcc) (x y : Nat),
      (x, y) ∈ ps → isBg (img.pix x y) = false →
      (ps.foldl (scanStep isBg img) acc).minX ≤ x ∧
      x ≤ (ps.foldl (scanStep isBg img) acc).maxX ∧
      (ps.foldl (scanStep isBg img) acc).minY ≤ y ∧
      y ≤ (ps.foldl (scanStep isBg img) acc).maxY
  | [], _, _, _, h, _ => absurd h (List.not_mem_nil _)
  | p :: ps, acc, x, y, hmem, hc => by
    rw [List.foldl_cons]
    rcases List.mem_cons.mp hmem with heq | htail
    · have hstep : (scanStep isBg img acc p).minX ≤ x ∧
          x ≤ (scanStep isBg img acc p).maxX ∧
          (scanStep isBg img acc p).minY ≤ y ∧
          y ≤ (scanStep isBg img acc p).maxY := by
        rw [← heq]
        unfold scanStep scanPixel
        simp only [hc, Bool.not_false, if_true]
        refine ⟨?_, ?_, ?_, ?_⟩ <;> · split <;> omega
      have mono := foldl_scanStep_bounds_mono isBg img ps (scanStep isBg img acc p)
      exact ⟨le_trans mono.1 hstep.1, le_trans hstep.2.1 mono.2.2.1,
        le_trans mono.2.1 hstep.2.2.1, le_trans hstep.2.2.2 mono.2.2.2⟩
    · exact foldl_scanStep_cover isBg img ps (scanStep isBg img acc p) x y htail hc

/-! ## C6 — exhaustive scan in the repack path -/

/-- C6 counterexample: the `SpritePreview.tsx` smart-crop scan strides by 2
and so skips pixels.  On a 4×4 cell whose only content pixel is at the odd
coordinates (1,1) its global scan reports no content, although the pixel
fails the background test and the exhaustive per-frame scan of `part_001`
does find it. -/
theorem alt_stride_scan_misses_pixel :
    (AltEditor.globalScan 4 4 (AltEditor.cropIsBg imgOddDot)
        (cropCell imgOddDot 1 4 4) (initFrames 1)).hasContent = false
    ∧ AltEditor.cropIsBg imgOddDot
        ((cropCell imgOddDot 1 4 4
          { id := 0, rotation := 0, scale := 1, flipH := false,
            isDeleted := false }).pix 1 1) = false
    ∧ (scanFrame 4 4 (AltEditor.cropIsBg imgOddDot)
        (cropCell imgOddDot 1 4 4
          { id := 0, rotation := 0, scale := 1, flipH := false,
            isDeleted := false })).hasContent = true := by
  decide

/-- C6 (amended): the per-frame bounds scan of the `part_001` repack is
exhaustive — it reports content iff ANY pixel of the rendered cell (odd
coordinates included) fails the background test, and its rectangle covers
every such pixel; the `SpritePreview.tsx` variant's smart crop instead
scans with stride 2 in both axes and can miss content pixels. -/
theorem scanFrame_exhaustive (frameW frameH : Nat) (isBg : Color → Bool)
    (img : Image) :
    ((scanFrame frameW frameH isBg img).hasContent = true ↔
      ∃ x y, x < frameW ∧ y < frameH ∧ isBg (img.pix x y) = false)
    ∧ (∀ x y, x < frameW → y < frameH → isBg (img.pix x y) = false →
        (scanFrame frameW frameH isBg img).minX ≤ x ∧
        x ≤ (scanFrame frameW frameH isBg img).maxX ∧
        (scanFrame frameW frameH isBg img).minY ≤ y ∧
        y ≤ (scanFrame frameW frameH isBg img).maxY) := by
  rw [scanFrame_eq_foldl_pairs]
  constructor
  · rw [foldl_scanStep_hasContent]
    simp only [Bool.false_eq_true, false_or]
    constructor
    · rintro ⟨p, hp, hc⟩
      rcases (mem_gridPairs frameW frameH p.1 p.2).mp hp with ⟨h1, h2⟩
      exact ⟨p.1, p.2, h1, h2, hc⟩
    · rintro ⟨x, y, hx, hy, hc⟩
      exact ⟨(x, y), (mem_gridPairs frameW frameH x y).mpr ⟨hx, hy⟩, hc⟩
  · intro x y hx hy hc
    exact foldl_scanStep_cover isBg img (gridPairs frameW frameH) _ x y
      ((mem_gridPairs frameW frameH x y).mpr ⟨hx, hy⟩) hc

/-- Closed instance of the exhaustiveness theorem at the odd-pixel image:
the part_001 scan does see the pixel at (1,1). -/
theorem scanFrame_exhaustive_witness :
    (scanFrame 4 4 (AltEditor.cropIsBg imgOddDot)
        (cropCell imgOddDot 1 4 4
          { id := 0, rotation := 0, scale := 1, flipH := false,
            isDeleted := false })).hasContent = true :=
  (scanFrame_exhaustive 4 4 (AltEditor.cropIsBg imgOddDot)
      (cropCell imgOddDot 1 4 4
        { id := 0, rotation := 0, scale := 1, flipH := false,
          isDeleted := false })).1.mpr
    ⟨1, 1, by decide, by decide, by decide⟩

/-! ## C5 — background reference and canvas fill -/

theorem find?_eq_head?_filter {α : Type _} (p : α → Bool) :
    ∀ l : List α, l.find? p = (l.filter p).head?
  | [] => rfl
  | x :: l => by
    by_cases h : p x
    · rw [List.find?_cons_of_pos _ h, List.filter_cons_of_pos h]
      rfl
    · rw [List.find?_cons_of_neg _ h, List.filter_cons_of_neg h,
        find?_eq_head?_filter p l]

/-- The source's `frames.find(f => !f.isDeleted) || frames[0]` computes the
spec's "first non-deleted frame in display order, frame 0 if all deleted". -/
theorem firstVisible_eq_spec (frames : List FrameData) :
    MainEditor.firstVisibleFrame frames = SpecModel.bgFrame frames := by
  unfold MainEditor.firstVisibleFrame SpecModel.bgFrame
  rw [find?_eq_head?_filter]
  cases h : frames.filter (fun f => !f.isDeleted) with
  | nil => simp
  | cons g gs => simp

/-- C5 counterexample: the `SpritePreview.tsx` smart crop samples its
background from the source image's cell-0 origin pixel, not from the first
non-deleted frame's rendered output.  With frame 0 deleted on a red/blue
1×2 sheet, its reference is red while the first non-deleted frame (source
id 1) renders blue at its origin. -/
theorem alt_bg_ignores_deletion :
    AltEditor.bgPixel imgTwoTone = ⟨255, 0, 0⟩
    ∧ (cropCell imgTwoTone 2 10 10 (SpecModel.bgFrame framesDel0)).pix 0 0 =
        ⟨0, 0, 255⟩
    ∧ (⟨255, 0, 0⟩ : Color) ≠ ⟨0, 0, 255⟩ := by
  decide

/-- C5 (amended): the `part_001` repack's background reference is the origin
pixel of the rendered output of the first non-deleted frame in display
order (frame at position 0 when all are deleted), and the whole new canvas
is filled with exactly that color before any frame is drawn; the
`SpritePreview.tsx` variant instead samples the source image's cell-0
origin. -/
theorem repack_bg_from_first_visible (render : FrameData → Image)
    (rows cols frameW frameH : Nat) (frames : List FrameData) :
    (MainEditor.smartCrop render rows cols frameW frameH frames).bgPixel =
      (render (SpecModel.bgFrame frames)).pix 0 0
    ∧ (MainEditor.smartCrop render rows cols frameW frameH frames).fill =
      ⟨0, 0, (MainEditor.smartCrop render rows cols frameW frameH frames).canvasW,
        (MainEditor.smartCrop render rows cols frameW frameH frames).canvasH,
        (MainEditor.smartCrop render rows cols frameW frameH frames).bgPixel⟩ := by
  constructor
  · show (render (MainEditor.firstVisibleFrame frames)).pix 0 0 = _
    rw [firstVisible_eq_spec]
  · rfl

/-! ## C4 — repack resets the frame state -/

/-- C4: after the `part_001` repack commit the frame list is exactly
`rows*cols` fresh identity records (id i, rotation 0, scale 1, no flip, not
deleted, no override) — independent of the previous records, so no prior
transform, deletion or override survives — and the repacked canvas becomes
the new baseline image. -/
theorem repack_resets_frame_state (render : FrameData → Image)
    (rows cols frameW frameH : Nat) (frames : List FrameData) :
    (MainEditor.smartCropCommit render rows cols frameW frameH frames).1 =
      initFrames (rows * cols)
    ∧ (MainEditor.smartCropCommit render rows cols frameW frameH frames).1.length =
      rows * cols
    ∧ (∀ i, i < rows * cols →
        (MainEditor.smartCropCommit render rows cols frameW frameH frames).1.getD
          i default =
        { id := i, rotation := 0, scale := 1, flipH := false, isDeleted := false,
          overrideImage := none })
    ∧ (MainEditor.smartCropCommit render rows cols frameW frameH frames).2 =
      MainEditor.smartCrop render rows cols frameW frameH frames := by
  refine ⟨rfl, by simp [MainEditor.smartCropCommit, initFrames], ?_, rfl⟩
  intro i hi
  have hlen : i < (initFrames (rows * cols)).length := by
    simpa [initFrames] using hi
  show (initFrames (rows * cols)).getD i default = _
  rw [getD_eq_getElem _ hlen]
  simp [initFrames]

/-- Closed instance of C4 on a concrete prior state with a deletion: the
record at position 0 after the commit is the fresh identity record. -/
theorem repack_resets_frame_state_witness :
    (MainEditor.smartCropCommit (cropCell imgTwoTone 2 10 10) 1 2 10 10
        framesDel0).1.getD 0 default =
      { id := 0, rotation := 0, scale := 1, flipH := false, isDeleted := false,
        overrideImage := none } :=
  (repack_resets_frame_state (cropCell imgTwoTone 2 10 10) 1 2 10 10
      framesDel0).2.2.1 0 (by decide)

/-! ## C1 — gap-free packing -/

theorem range_succ_map_add (k p : Nat) :
    (List.range (k + 1)).map (· + p) = p :: (List.range k).map (· + (p + 1)) := by
  rw [List.range_succ_eq_map, List.map_cons, List.map_map, Nat.zero_add]
  congr 1
  refine List.map_congr_left fun a _ => ?_
  simp only [Function.comp_apply]
  omega

/-- The `handleSave` loop of `part_001` emits exactly the non-deleted frames
in order, numbered consecutively from the starting packed index. -/
theorem savePlacements_spec :
    ∀ (frames : List FrameData) (p : Nat),
      (MainEditor.savePlacements frames p).map Prod.fst =
        frames.filter (fun f => !f.isDeleted)
      ∧ (MainEditor.savePlacements frames p).map Prod.snd =
        (List.range ((frames.filter (fun f => !f.isDeleted)).length)).map (· + p)
  | [], _ => ⟨rfl, rfl⟩
  | f :: fs, p => by
    by_cases hd : f.isDeleted
    · have hfilter : (f :: fs).filter (fun g => !g.isDeleted) =
          fs.filter (fun g => !g.isDeleted) :=
        List.filter_cons_of_neg (by simp [hd])
      simp only [MainEditor.savePlacements, if_pos hd, hfilter]
      exact savePlacements_spec fs p
    · have hfilter : (f :: fs).filter (fun g => !g.isDeleted) =
          f :: fs.filter (fun g => !g.isDeleted) :=
        List.filter_cons_of_pos (by simp [hd])
      have ih := savePlacements_spec fs (p + 1)
      simp only [MainEditor.savePlacements, if_neg hd, hfilter]
      refine ⟨?_, ?_⟩
      · simp [ih.1]
      · simp [ih.2, List.length_cons, range_succ_map_add]

/-- The repack loop of `part_001` emits exactly the non-deleted frames with
content, in order, numbered consecutively from the starting packed index. -/
theorem repackPlacements_spec (cols outW outH : Nat) :
    ∀ (pairs : List (FrameData × ContentRect)) (p : Nat),
      (MainEditor.repackPlacements cols outW outH pairs p).map Placement.frame =
        (pairs.filter
          (fun pb => !pb.1.isDeleted && pb.2.hasContent)).map Prod.fst
      ∧ (MainEditor.repackPlacements cols outW outH pairs p).map
          Placement.packedIndex =
        (List.range
          ((pairs.filter
            (fun pb => !pb.1.isDeleted && pb.2.hasContent)).length)).map (· + p)
  | [], _ => ⟨rfl, rfl⟩
  | (f, b) :: rest, p => by
    by_cases hk : (f.isDeleted || !b.hasContent) = true
    · have hkept : (!f.isDeleted && b.hasContent) = false := by
        revert hk
        cases f.isDeleted <;> cases b.hasContent <;> simp
      have hfil : ((f, b) :: rest).filter
          (fun pb => !pb.1.isDeleted && pb.2.hasContent) =
          rest.filter (fun pb => !pb.1.isDeleted && pb.2.hasContent) :=
        List.filter_cons_of_neg (by simpa using hkept)
      simp only [MainEditor.repackPlacements, if_pos hk, hfil]
      exact repackPlacements_spec cols outW outH rest p
    · have hkept : (!f.isDeleted && b.hasContent) = true := by
        revert hk
        cases f.isDeleted <;> cases b.hasContent <;> simp
      have hfil : ((f, b) :: rest).filter
          (fun pb => !pb.1.isDeleted && pb.2.hasContent) =
          (f, b) :: rest.filter (fun pb => !pb.1.isDeleted && pb.2.hasContent) :=
        List.filter_cons_of_pos (by simpa using hkept)
      have ih := repackPlacements_spec cols outW outH rest (p + 1)
      simp only [MainEditor.repackPlacements, if_neg hk, hfil]
      refine ⟨?_, ?_⟩
      · simp [ih.1]
      · simp [ih.2, List.length_cons, range_succ_map_add]

/-- The `frameBounds` list is computed pointwise: each frame's entry depends
only on that frame's own rendered pixels. -/
theorem analyzeFrames_bounds (render : FrameData → Image)
    (frameW frameH : Nat) (isBg : Color → Bool) :
    ∀ (frames : List FrameData) (mw mh : Nat),
      (MainEditor.analyzeFrames render frameW frameH isBg frames mw mh).1 =
        frames.map (MainEditor.boundsOf render frameW frameH isBg)
  | [], _, _ => rfl
  | f :: fs, mw, mh => by
    by_cases hd : f.isDeleted
    · simp [MainEditor.analyzeFrames, MainEditor.boundsOf, hd,
        analyzeFrames_bounds render frameW frameH isBg fs]
    · by_cases hc : (scanFrame frameW frameH isBg (render f)).hasContent
      · simp [MainEditor.analyzeFrames, MainEditor.boundsOf, hd, hc,
          analyzeFrames_bounds render frameW frameH isBg fs]
      · simp [MainEditor.analyzeFrames, MainEditor.boundsOf, hd, hc,
          analyzeFrames_bounds render frameW frameH isBg fs]

theorem zip_map_filter_kept (g : FrameData → ContentRect) :
    ∀ l : List FrameData,
      ((l.zip (l.map g)).filter
        (fun pb => !pb.1.isDeleted && pb.2.hasContent)).map Prod.fst =
        l.filter (fun f => !f.isDeleted && (g f).hasContent)
  | [] => rfl
  | f :: fs => by
    simp only [List.map_cons, List.zip_cons_cons]
    by_cases hk : (!f.isDeleted && (g f).hasContent) = true
    · have h1 : ((f, g f) :: fs.zip (fs.map g)).filter
          (fun pb => !pb.1.isDeleted && pb.2.hasContent) =
          (f, g f) :: (fs.zip (fs.map g)).filter
            (fun pb => !pb.1.isDeleted && pb.2.hasContent) :=
        List.filter_cons_of_pos (by simpa using hk)
      have h2 : (f :: fs).filter (fun f => !f.isDeleted && (g f).hasContent) =
          f :: fs.filter (fun f => !f.isDeleted && (g f).hasContent) :=
        List.filter_cons_of_pos (by simpa using hk)
      rw [h1, h2, List.map_cons, zip_map_filter_kept g fs]
    · have h1 : ((f, g f) :: fs.zip (fs.map g)).filter
          (fun pb => !pb.1.isDeleted && pb.2.hasContent) =
          (fs.zip (fs.map g)).filter
            (fun pb => !pb.1.isDeleted && pb.2.hasContent) :=
        List.filter_cons_of_neg (by simpa using hk)
      have h2 : (f :: fs).filter (fun f => !f.isDeleted && (g f).hasContent) =
          fs.filter (fun f => !f.isDeleted && (g f).hasContent) :=
        List.filter_cons_of_neg (by simpa using hk)
      rw [h1, h2, zip_map_filter_kept g fs]

/-- The repack draw sequence is numbered `0, 1, ..., len-1`: no gaps, in
order. -/
theorem repackPlacements_packed_range (cols outW outH : Nat)
    (pairs : List (FrameData × ContentRect)) :
    (MainEditor.repackPlacements cols outW outH pairs 0).map
        Placement.packedIndex =
      List.range (MainEditor.repackPlacements cols outW outH pairs 0).length := by
  have h := repackPlacements_spec cols outW outH pairs 0
  have hlen : (MainEditor.repackPlacements cols outW outH pairs 0).length =
      (pairs.filter (fun pb => !pb.1.isDeleted && pb.2.hasContent)).length := by
    have := congrArg List.length h.1
    simpa using this
  rw [h.2, hlen]
  simp

/-- C1 counterexample: the `SpritePreview.tsx` variant's `handleSave` keeps
each surviving frame at its original array index, so a deletion leaves a
gap: with frame 0 deleted on a 2-frame sheet, the single surviving frame is
drawn at output position 1, not at the claimed consecutive positions
`0..rows*cols-k-1 = [0]`. -/
theorem alt_save_leaves_gap :
    (AltEditor.savePlacements framesDel0 0).map Prod.snd = [1]
    ∧ (framesDel0.filter (fun f => !f.isDeleted)).length = 1
    ∧ ([1] : List Nat) ≠ List.range 1 := by
  decide

/-- C1 (amended): in `part_001`, `handleSave` renders exactly the
non-deleted frames in display order at consecutive packed positions
`0..(n-k)-1` — the output position does not advance on a skipped frame —
and its repack does the same over the frames that are non-deleted and have
detected content, hence also exactly `n-k` draws whenever every non-deleted
frame has content.  (The `SpritePreview.tsx` variant's save instead draws
survivors at their original display index, leaving gaps at deleted slots.) -/
theorem save_and_repack_pack_without_gaps (render : FrameData → Image)
    (rows cols frameW frameH : Nat) (frames : List FrameData) :
    ((MainEditor.savePlacements frames 0).map Prod.fst =
        frames.filter (fun f => !f.isDeleted)
      ∧ (MainEditor.savePlacements frames 0).map Prod.snd =
        List.range ((frames.filter (fun f => !f.isDeleted)).length)
      ∧ (MainEditor.savePlacements frames 0).length =
        frames.length - (frames.filter (fun f => f.isDeleted)).length)
    ∧ ((MainEditor.smartCrop render rows cols frameW frameH frames).draws.map
          Placement.packedIndex =
        List.range
          (MainEditor.smartCrop render rows cols frameW frameH
            frames).draws.length
      ∧ ((∀ f ∈ frames, f.isDeleted = false →
            (scanFrame frameW frameH (MainEditor.bgClassifier render frames)
              (render f)).hasContent = true) →
          (MainEditor.smartCrop render rows cols frameW frameH
            frames).draws.length =
            frames.length - (frames.filter (fun f => f.isDeleted)).length)) := by
  have hsplit : frames.length =
      (frames.filter (fun f => f.isDeleted)).length +
        (frames.filter (fun f => !f.isDeleted)).length :=
    List.length_eq_length_filter_add (fun f => f.isDeleted)
  have hsave := savePlacements_spec frames 0
  have hsavelen : (MainEditor.savePlacements frames 0).length =
      (frames.filter (fun f => !f.isDeleted)).length := by
    have := congrArg List.length hsave.1
    simpa using this
  refine ⟨⟨hsave.1, ?_, by omega⟩, ?_, ?_⟩
  · rw [hsave.2]
    simp
  · exact repackPlacements_packed_range cols
      (MainEditor.outputCell frameW frameH
        (MainEditor.analysis render frameW frameH frames).2.1
        (MainEditor.analysis render frameW frameH frames).2.2).1
      (MainEditor.outputCell frameW frameH
        (MainEditor.analysis render frameW frameH frames).2.1
        (MainEditor.analysis render frameW frameH frames).2.2).2
      (frames.zip (MainEditor.analysis render frameW frameH frames).1)
  · intro hall
    have hdraws := repackPlacements_spec
      cols (MainEditor.outputCell frameW frameH
        (MainEditor.analysis render frameW frameH frames).2.1
        (MainEditor.analysis render frameW frameH frames).2.2).1
      (MainEditor.outputCell frameW frameH
        (MainEditor.analysis render frameW frameH frames).2.1
        (MainEditor.analysis render frameW frameH frames).2.2).2
      (frames.zip (MainEditor.analysis render frameW frameH frames).1) 0
    have hlen : (MainEditor.smartCrop render rows cols frameW frameH
        frames).draws.length =
        ((frames.zip (MainEditor.analysis render frameW frameH frames).1).filter
          (fun pb => !pb.1.isDeleted && pb.2.hasContent)).length := by
      have := congrArg List.length hdraws.1
      simpa [MainEditor.smartCrop] using this
    have hbounds : (MainEditor.analysis render frameW frameH frames).1 =
        frames.map
          (MainEditor.boundsOf render frameW frameH
            (MainEditor.bgClassifier render frames)) :=
      analyzeFrames_bounds render frameW frameH
        (MainEditor.bgClassifier render frames) frames 0 0
    have hzip := congrArg List.length
      (zip_map_filter_kept
        (MainEditor.boundsOf render frameW frameH
          (MainEditor.bgClassifier render frames)) frames)
    rw [List.length_map] at hzip
    have hcongr : frames.filter
        (fun f => !f.isDeleted &&
          (MainEditor.boundsOf render frameW frameH
            (MainEditor.bgClassifier render frames) f).hasContent) =
        frames.filter (fun f => !f.isDeleted) := by
      refine List.filter_congr fun f hf => ?_
      by_cases hd : f.isDeleted
      · simp [hd]
      · have hc := hall f hf (by simpa using hd)
        simp [hd, MainEditor.boundsOf, hc]
    rw [hlen, hbounds, hzip, hcongr]
    omega

/-- Closed instance of C1 on a 1×2 sheet with frame 0 deleted: the repack
emits exactly `2 - 1 = 1` draw. -/
theorem save_and_repack_pack_without_gaps_witness :
    (MainEditor.smartCrop (cropCell imgTwoDots 2 10 10) 1 2 10 10
        framesDel0).draws.length =
      framesDel0.length - (framesDel0.filter (fun f => f.isDeleted)).length :=
  (save_and_repack_pack_without_gaps (cropCell imgTwoDots 2 10 10) 1 2 10 10
      framesDel0).2.2 (by decide)

/-! ## C3 — output cell size -/

/-- The source's running-max update `if (w > maxContentW) maxContentW = w`
is `max`. -/
theorem if_gt_eq_max (m x : Nat) : (if x > m then x else m) = max m x := by
  rw [Nat.max_def]
  split <;> split <;> omega

theorem le_foldl_max : ∀ (l : List Nat) (a : Nat), a ≤ l.foldl max a
  | [], a => le_refl a
  | x :: l, a => le_trans (Nat.le_max_left a x) (le_foldl_max l (max a x))

theorem mem_le_foldl_max : ∀ (l : List Nat) (a x : Nat), x ∈ l → x ≤ l.foldl max a
  | [], _, _, h => absurd h (List.not_mem_nil _)
  | y :: l, a, x, h => by
    rcases List.mem_cons.mp h with rfl | h2
    · exact le_trans (Nat.le_max_right a x) (le_foldl_max l (max a x))
    · exact mem_le_foldl_max l (max a y) x h2

/-- The analysis loop's running maxima are the `max` folds over the
per-frame content widths and heights of the non-deleted frames that have
content. -/
theorem analyzeFrames_max (render : FrameData → Image) (frameW frameH : Nat)
    (isBg : Color → Bool) :
    ∀ (frames : List FrameData) (mw mh : Nat),
      (MainEditor.analyzeFrames render frameW frameH isBg frames mw mh).2.1 =
        (SpecModel.contentWidths render frameW frameH isBg frames).foldl max mw
      ∧ (MainEditor.analyzeFrames render frameW frameH isBg frames mw mh).2.2 =
        (SpecModel.contentHeights render frameW frameH isBg frames).foldl max mh
  | [], _, _ => ⟨rfl, rfl⟩
  | f :: fs, mw, mh => by
    by_cases hd : f.isDeleted
    · have ih := analyzeFrames_max render frameW frameH isBg fs mw mh
      simp [MainEditor.analyzeFrames, SpecModel.contentWidths,
        SpecModel.contentHeights, List.filterMap_cons, hd, ih.1, ih.2]
    · by_cases hc : (scanFrame frameW frameH isBg (render f)).hasContent
      · have ih := analyzeFrames_max render frameW frameH isBg fs
          (max mw ((scanFrame frameW frameH isBg (render f)).maxX -
            (scanFrame frameW frameH isBg (render f)).minX + 1))
          (max mh ((scanFrame frameW frameH isBg (render f)).maxY -
            (scanFrame frameW frameH isBg (render f)).minY + 1))
        simp [MainEditor.analyzeFrames, SpecModel.contentWidths,
          SpecModel.contentHeights, List.filterMap_cons, hd, hc, if_gt_eq_max,
          ih.1, ih.2]
      · have ih := analyzeFrames_max render frameW frameH isBg fs mw mh
        simp [MainEditor.analyzeFrames, SpecModel.contentWidths,
          SpecModel.contentHeights, List.filterMap_cons, hd, hc, ih.1, ih.2]

/-- Closed form of the output-cell computation: full-cell fallback when the
running maximum stayed 0, otherwise the padded, clamped maxima. -/
theorem outputCell_eq (frameW frameH mw mh : Nat) :
    (mw = 0 → MainEditor.outputCell frameW frameH mw mh = (frameW, frameH))
    ∧ (mw ≠ 0 → MainEditor.outputCell frameW frameH mw mh =
        (min frameW (mw + 2 * 4), min frameH (mh + 2 * 4))) := by
  constructor
  · intro h
    subst h
    show (min frameW (frameW + 4 * 2), min frameH (frameH + 4 * 2)) =
      (frameW, frameH)
    rw [Nat.min_eq_left (by omega), Nat.min_eq_left (by omega)]
  · intro h
    unfold MainEditor.outputCell
    rw [if_neg h, if_neg h]

/-- Every recorded content width is at least 1 (it is `maxX - minX + 1`). -/
theorem contentWidths_pos (render : FrameData → Image) (frameW frameH : Nat)
    (isBg : Color → Bool) (frames : List FrameData) :
    ∀ x ∈ SpecModel.contentWidths render frameW frameH isBg frames, 1 ≤ x := by
  intro x hx
  rcases List.mem_filterMap.mp hx with ⟨f, _, hf⟩
  simp only at hf
  split at hf
  · exact absurd hf (by simp)
  · split at hf
    · simp only [Option.some.injEq] at hf
      omega
    · exact absurd hf (by simp)

/-- C3 counterexample: the `SpritePreview.tsx` smart crop computes one
global bounding box across all frames, so its new cell width is not
`min(cellW, maxPerFrameWidth + 2*padding)`.  On a 1×2 sheet of 10×10 cells
with one content pixel at x=2 of cell 0 and one at x=8 of cell 1, its
global rectangle spans the padded range 0..10 giving cell width 10, while
the claimed per-frame formula gives `min(10, 1 + 8) = 9`. -/
theorem alt_global_crop_not_perframe_formula :
    AltEditor.newFrameW 10 10 (AltEditor.cropIsBg imgTwoDots)
      (cropCell imgTwoDots 2 10 10) (initFrames 2) = 10
    ∧ min 10 ((SpecModel.contentWidths (cropCell imgTwoDots 2 10 10) 10 10
        (AltEditor.cropIsBg imgTwoDots) (initFrames 2)).foldl max 0 + 2 * 4) = 9
    ∧ (10 : Nat) ≠ 9 := by
  decide

/-- C3 (amended): the `part_001` repack computes a content rectangle
independently for every non-deleted frame (deleted frames get the zero
rectangle), and its output cell is
`min(cellW, (max content width over non-deleted content frames) + 2*4)`
(height analogous); when no frame has content both fall back to the
original cell size.  The `SpritePreview.tsx` variant instead uses one
global padded bounding box as the new cell. -/
theorem repack_output_cell_formula (render : FrameData → Image)
    (rows cols frameW frameH : Nat) (frames : List FrameData) :
    ((MainEditor.analysis render frameW frameH frames).1 =
        frames.map (MainEditor.boundsOf render frameW frameH
          (MainEditor.bgClassifier render frames)))
    ∧ (SpecModel.contentWidths render frameW frameH
          (MainEditor.bgClassifier render frames) frames = [] →
        (MainEditor.smartCrop render rows cols frameW frameH frames).outW =
          frameW
        ∧ (MainEditor.smartCrop render rows cols frameW frameH frames).outH =
          frameH)
    ∧ (SpecModel.contentWidths render frameW frameH
          (MainEditor.bgClassifier render frames) frames ≠ [] →
        (MainEditor.smartCrop render rows cols frameW frameH frames).outW =
          min frameW
            ((SpecModel.contentWidths render frameW frameH
              (MainEditor.bgClassifier render frames) frames).foldl max 0 + 2 * 4)
        ∧ (MainEditor.smartCrop render rows cols frameW frameH frames).outH =
          min frameH
            ((SpecModel.contentHeights render frameW frameH
              (MainEditor.bgClassifier render frames) frames).foldl max 0 +
              2 * 4)) := by
  have hmax := analyzeFrames_max render frameW frameH
    (MainEditor.bgClassifier render frames) frames 0 0
  have hW : (MainEditor.analysis render frameW frameH frames).2.1 =
      (SpecModel.contentWidths render frameW frameH
        (MainEditor.bgClassifier render frames) frames).foldl max 0 := hmax.1
  have hH : (MainEditor.analysis render frameW frameH frames).2.2 =
      (SpecModel.contentHeights render frameW frameH
        (MainEditor.bgClassifier render frames) frames).foldl max 0 := hmax.2
  refine ⟨analyzeFrames_bounds render frameW frameH
    (MainEditor.bgClassifier render frames) frames 0 0, ?_, ?_⟩
  · intro hnil
    have hW0 : (MainEditor.analysis render frameW frameH frames).2.1 = 0 := by
      rw [hW, hnil]
      rfl
    have hcell := (outputCell_eq frameW frameH
      (MainEditor.analysis render frameW frameH frames).2.1
      (MainEditor.analysis render frameW frameH frames).2.2).1 hW0
    show (MainEditor.outputCell frameW frameH
        (MainEditor.analysis render frameW frameH frames).2.1
        (MainEditor.analysis render frameW frameH frames).2.2).1 = frameW
      ∧ (MainEditor.outputCell frameW frameH
        (MainEditor.analysis render frameW frameH frames).2.1
        (MainEditor.analysis render frameW frameH frames).2.2).2 = frameH
    rw [hcell]
    exact ⟨rfl, rfl⟩
  · intro hne
    obtain ⟨x, hx⟩ := List.exists_mem_of_ne_nil _ hne
    have hx1 : 1 ≤ x := contentWidths_pos render frameW frameH
      (MainEditor.bgClassifier render frames) frames x hx
    have hfold : 1 ≤ (SpecModel.contentWidths render frameW frameH
        (MainEditor.bgClassifier render frames) frames).foldl max 0 :=
      le_trans hx1 (mem_le_foldl_max _ 0 x hx)
    have hWne : (MainEditor.analysis render frameW frameH frames).2.1 ≠ 0 := by
      rw [hW]
      omega
    have hcell := (outputCell_eq frameW frameH
      (MainEditor.analysis render frameW frameH frames).2.1
      (MainEditor.analysis render frameW frameH frames).2.2).2 hWne
    show (MainEditor.outputCell frameW frameH
        (MainEditor.analysis render frameW frameH frames).2.1
        (MainEditor.analysis render frameW frameH frames).2.2).1 = _
      ∧ (MainEditor.outputCell frameW frameH
        (MainEditor.analysis render frameW frameH frames).2.1
        (MainEditor.analysis render frameW frameH frames).2.2).2 = _
    rw [hcell, hW, hH]
    exact ⟨rfl, rfl⟩

/-- Closed instance of C3 on the two-dot sheet: the part_001 output cell
width matches the per-frame formula (and equals 9, unlike the variant's
global-box result of 10). -/
theorem repack_output_cell_formula_witness :
    (MainEditor.smartCrop (cropCell imgTwoDots 2 10 10) 1 2 10 10
        (initFrames 2)).outW =
      min 10 ((SpecModel.contentWidths (cropCell imgTwoDots 2 10 10) 10 10
        (MainEditor.bgClassifier (cropCell imgTwoDots 2 10 10) (initFrames 2))
        (initFrames 2)).foldl max 0 + 2 * 4) :=
  ((repack_output_cell_formula (cropCell imgTwoDots 2 10 10) 1 2 10 10
      (initFrames 2)).2.2 (by decide)).1

end SpriteGen
